import Mathlib

set_option maxRecDepth 8000

/-!
# Verification of the tiktok-quotes content-selection and layout core

Shallow embedding of the deduplication-aware selection, history-store and
text-wrapping logic of the repository (src/src/history.py,
src/src/quote_fetcher.py, src/src/video_fetcher.py, src/src/video_composer.py,
src/main.py), with theorems settling the specification's claims about it.
-/

namespace TikTokQuotes

/-- A quote as returned by the quote catalog: `{"content": ..., "author": ...}`
(src/src/quote_fetcher.py line 25). -/
structure Quote where
  content : String
  author : String
deriving Repr, DecidableEq

/-- The in-memory history dict `{"quotes": [...], "videos": [...]}`
(src/src/history.py). Quote identity is the exact content string, clip
identity the integer id. -/
structure History where
  quotes : List String
  videos : List Nat
deriving Repr, DecidableEq

/-- `MAX_ENTRIES = 365` (src/src/history.py line 8). -/
def MAX_ENTRIES : Nat := 365

/-- `quote_seen(history, content) = content in history["quotes"]`
(src/src/history.py lines 34-35). -/
def quote_seen (history : History) (content : String) : Bool :=
  history.quotes.contains content

/-- `video_seen(history, video_id) = video_id in history["videos"]`
(src/src/history.py lines 38-39). -/
def video_seen (history : History) (video_id : Nat) : Bool :=
  history.videos.contains video_id

/-- `record(history, quote_content, video_id)` appends to both lists in place
(src/src/history.py lines 42-45). In the embedding the mutation becomes a
returned updated value. -/
def record (history : History) (quote_content : String) (video_id : Nat) : History :=
  { quotes := history.quotes ++ [quote_content]
    videos := history.videos ++ [video_id] }

/-- Python's `l[-n:]` for positive `n`: the suffix keeping the last
`min n l.length` elements. -/
def takeLast (n : Nat) (l : List α) : List α :=
  l.drop (l.length - n)

/-- State of the process around the history store: the in-memory `history`
dict and the persisted content of `history.json` (if any). -/
structure StoreState where
  mem : History
  disk : Option History
deriving Repr, DecidableEq

/-- `save(history)` (src/src/history.py lines 23-31): builds a `trimmed` copy
with each list cut to its last `MAX_ENTRIES` entries and writes it to disk;
the in-memory `history` argument is not touched. -/
def save (s : StoreState) : StoreState :=
  let trimmed : History :=
    { quotes := takeLast MAX_ENTRIES s.mem.quotes
      videos := takeLast MAX_ENTRIES s.mem.videos }
  { mem := s.mem, disk := some trimmed }

/-- The observable states of the persisted store when `load()` runs:
the file is missing, the file exists but `json.load` fails (corrupt), or it
parses to a dict whose `"quotes"` / `"videos"` keys may each be absent. -/
inductive DiskFile where
  | missing
  | corrupt
  | parsed (quotes : Option (List String)) (videos : Option (List Nat))
deriving Repr, DecidableEq

/-- `load()` (src/src/history.py lines 11-20): returns the empty history when
`HISTORY_FILE` does not exist; otherwise runs `json.load`, which raises on a
corrupt file (there is no try/except around it, so the exception propagates),
and on success reads each key with `data.get(key, [])`. -/
def load : DiskFile → Except String History
  | DiskFile.missing => Except.ok { quotes := [], videos := [] }
  | DiskFile.corrupt => Except.error "json.decoder.JSONDecodeError"
  | DiskFile.parsed qs vs => Except.ok { quotes := qs.getD [], videos := vs.getD [] }

/-! ## Quote selector (src/src/quote_fetcher.py) -/

/-- `MAX_ATTEMPTS = 10` (src/src/quote_fetcher.py line 7). -/
def QUOTE_MAX_ATTEMPTS : Nat := 10

/-- Errors `fetch_quote` raises: a `RuntimeError` wrapping an upstream fetch
failure (lines 31-32), or the exhaustion `RuntimeError` after the attempt
budget (line 34). -/
inductive QuoteError where
  | upstream (attempt : Nat)
  | exhausted
deriving Repr, DecidableEq

/-- The loop body of `fetch_quote` (src/src/quote_fetcher.py lines 20-34),
indexed by the current `attempt` and the remaining attempts (`fuel`, started
at `MAX_ATTEMPTS`). The network is abstracted as `stream`, giving per attempt
either an exception (`Except.error`) or the parsed quote. A successful return
is instrumented with the attempt number at which it happened; `fetch_quote`
below forgets it, matching the Python return value. -/
def fetchQuoteLoop (history : History) (stream : Nat → Except Unit Quote) :
    Nat → Nat → Except QuoteError (Quote × Nat)
  | _, 0 => Except.error QuoteError.exhausted
  | attempt, fuel + 1 =>
    match stream attempt with
    | Except.error _ => Except.error (QuoteError.upstream attempt)
    | Except.ok quote =>
      if quote_seen history quote.content then
        fetchQuoteLoop history stream (attempt + 1) fuel
      else
        Except.ok (quote, attempt)

/-- `fetch_quote(history)` (src/src/quote_fetcher.py lines 10-34). -/
def fetch_quote (history : History) (stream : Nat → Except Unit Quote) :
    Except QuoteError Quote :=
  (fetchQuoteLoop history stream 1 QUOTE_MAX_ATTEMPTS).map Prod.fst

/-! ## Clip selector (src/src/video_fetcher.py) -/

/-- One entry of a candidate's `video_files` list, with `f.get("width", 0)`,
`f.get("height", 0)` defaults already applied, and its `link`. -/
structure VideoFile where
  width : Nat
  height : Nat
  link : String
deriving Repr, DecidableEq

/-- A Pexels candidate: integer `id` and its `video_files` variants. -/
structure VideoCandidate where
  id : Nat
  video_files : List VideoFile
deriving Repr, DecidableEq

/-- `MAX_ATTEMPTS = 5` (src/src/video_fetcher.py line 9). -/
def VIDEO_MAX_ATTEMPTS : Nat := 5

/-- Errors of `fetch_video`: an upstream exception propagating out of the
function (`raise_for_status`, download errors — none is caught inside), or
the exhaustion `RuntimeError` of line 90. -/
inductive VideoError where
  | upstream (attempt : Nat)
  | exhausted
deriving Repr, DecidableEq

/-- Insert into a list already sorted by descending `height`, keeping earlier
elements first on ties: models the stability of Python's `sorted(...,
key=lambda f: f.get("height", 0), reverse=True)`. -/
def insertByHeightDesc (f : VideoFile) : List VideoFile → List VideoFile
  | [] => [f]
  | g :: gs => if g.height ≥ f.height then g :: insertByHeightDesc f gs else f :: g :: gs

/-- `sorted(candidates, key=lambda f: f.get("height", 0), reverse=True)`
(src/src/video_fetcher.py line 74). -/
def sortByHeightDesc (fs : List VideoFile) : List VideoFile :=
  fs.foldr insertByHeightDesc []

/-- The variant-selection block of `fetch_video` (src/src/video_fetcher.py
lines 71-78): prefer portrait files (`height > width`); among the preferred
subset (or all files, when no portrait one exists) take the head of the
descending sort by height; `none` when `video_files` is empty (the Python
`if not video_files: continue`). -/
def chooseVariantFile (all_files : List VideoFile) : Option VideoFile :=
  let portrait_files := all_files.filter (fun f => f.height > f.width)
  let candidates := if portrait_files.isEmpty then all_files else portrait_files
  (sortByHeightDesc candidates).head?

/-- Result of a successful `fetch_video` pick, instrumented with the chosen
candidate, the chosen variant file and the attempt number. -/
structure VideoResult where
  video : VideoCandidate
  file : VideoFile
  attempt : Nat
deriving Repr, DecidableEq

/-- The loop of `fetch_video` (src/src/video_fetcher.py lines 46-90).
`stream` abstracts the Pexels search per attempt (exception or batch of
candidates — the randomly chosen query only varies the batch, so it is folded
into `stream`); `pick` abstracts `random.choice(fresh)` as an arbitrary index,
reduced modulo the number of survivors. Empty batch (`if not videos`), fully
used batch (`if not fresh`) and empty `video_files` all `continue` to the
next attempt. -/
def fetchVideoLoop (history : History)
    (stream : Nat → Except Unit (List VideoCandidate)) (pick : Nat → Nat) :
    Nat → Nat → Except VideoError VideoResult
  | _, 0 => Except.error VideoError.exhausted
  | attempt, fuel + 1 =>
    match stream attempt with
    | Except.error _ => Except.error (VideoError.upstream attempt)
    | Except.ok videos =>
      if videos.isEmpty then
        fetchVideoLoop history stream pick (attempt + 1) fuel
      else
        let fresh := videos.filter (fun v => !video_seen history v.id)
        if hf : fresh.isEmpty then
          fetchVideoLoop history stream pick (attempt + 1) fuel
        else
          let video := fresh.get ⟨pick attempt % fresh.length, Nat.mod_lt _
            (Nat.pos_of_ne_zero (fun h0 => hf (List.isEmpty_iff_length_eq_zero.mpr h0)))⟩
          match chooseVariantFile video.video_files with
          | none => fetchVideoLoop history stream pick (attempt + 1) fuel
          | some file => Except.ok { video := video, file := file, attempt := attempt }

/-- `fetch_video(output_path, history)` (src/src/video_fetcher.py lines
25-90): returns `(dest, video["id"])`; `dest` is the download path of the
chosen variant's `link`, which we represent by the link itself. -/
def fetch_video (history : History)
    (stream : Nat → Except Unit (List VideoCandidate)) (pick : Nat → Nat) :
    Except VideoError (String × Nat) :=
  (fetchVideoLoop history stream pick 1 VIDEO_MAX_ATTEMPTS).map
    (fun r => (r.file.link, r.video.id))

/-! ## Text layout: word wrap (src/src/video_composer.py) -/

/-- `" ".join(words)` (src/src/video_composer.py lines 101, 105, 110). -/
def joinWords (ws : List String) : String :=
  String.intercalate " " ws

/-- Helper for `pySplit`: walk the character list, accumulating the current
word reversed; whitespace closes the word (if non-empty), so empty fragments
never appear. -/
def pySplitAux (cur : List Char) : List Char → List String
  | [] => if cur.isEmpty then [] else [String.mk cur.reverse]
  | c :: cs =>
    if c.isWhitespace then
      if cur.isEmpty then pySplitAux [] cs
      else String.mk cur.reverse :: pySplitAux [] cs
    else pySplitAux (c :: cur) cs

/-- Python's `text.split()`: split on whitespace runs, dropping empty
fragments (src/src/video_composer.py line 96). -/
def pySplit (text : String) : List String :=
  pySplitAux [] text.data

/-- The loop of `_wrap_to_width` (src/src/video_composer.py lines 96-113)
over the word list, carrying the `current` accumulator. The font and
`draw.textbbox` measurement `bbox[2] - bbox[0]` are abstracted as
`measure : String → Nat`. Each word is tested by joining it onto `current`;
on a fit it is appended, otherwise the non-empty `current` is emitted as a
line and `current` restarts as `[word]`; the trailing `current` is emitted
at the end. Lines are kept as word lists here; `_wrap_to_width` joins them. -/
def wrapLoop (measure : String → Nat) (max_w : Nat) :
    List String → List String → List (List String)
  | current, [] => if current.isEmpty then [] else [current]
  | current, word :: rest =>
    if measure (joinWords (current ++ [word])) ≤ max_w then
      wrapLoop measure max_w (current ++ [word]) rest
    else if current.isEmpty then
      wrapLoop measure max_w [word] rest
    else
      current :: wrapLoop measure max_w [word] rest

/-- `_wrap_to_width(draw, text, font, max_w)` (src/src/video_composer.py
lines 94-113): the produced lines as strings. -/
def wrap_to_width (measure : String → Nat) (text : String) (max_w : Nat) :
    List String :=
  (wrapLoop measure max_w [] (pySplit text)).map joinWords

/-- `max_text_w = 680` (src/src/video_composer.py line 39). -/
def MAX_TEXT_W : Nat := 680

/-! ## Pipeline driver (src/main.py) -/

/-- `VIDEOS_PER_DAY = 3` (src/main.py line 18). -/
def VIDEOS_PER_DAY : Nat := 3

/-- The operations the driver's loop body performs on the pipeline's core
state, in the order `main` calls them. -/
inductive PipelineStep where
  | fetchQuoteStep
  | fetchVideoStep
  | composeStep
  | recordStep
deriving Repr, DecidableEq, BEq

/-- The call order of one iteration of the driver loop (src/main.py lines
33-56): `fetch_quote` (line 40), `fetch_video` (line 45), `compose_video`
(line 49), then `history_store.record` (line 52). -/
def iterationSteps : List PipelineStep :=
  [PipelineStep.fetchQuoteStep, PipelineStep.fetchVideoStep,
   PipelineStep.composeStep, PipelineStep.recordStep]

/-- The step sequence of the whole `for i in range(1, VIDEOS_PER_DAY + 1)`
loop of `main` (src/main.py lines 33-56). -/
def mainLoopSteps : List PipelineStep :=
  (List.range VIDEOS_PER_DAY).flatMap (fun _ => iterationSteps)

/-! ## Concrete instances used by the spec's end-to-end scenario -/

/-- The scenario history `{quotes: ["Be yourself."], videos: [42]}`. -/
def scenarioHistory : History := { quotes := ["Be yourself."], videos := [42] }

/-- The already-used quote of the scenario. -/
def scenarioQuote1 : Quote := { content := "Be yourself.", author := "Unknown" }

/-- The fresh quote of the scenario. -/
def scenarioQuote2 : Quote := { content := "Stay curious.", author := "Unknown" }

/-- Quote catalog of the scenario: `"Be yourself."` on attempt 1,
`"Stay curious."` on attempt 2. -/
def scenarioQuoteStream : Nat → Except Unit Quote := fun n =>
  if n = 1 then Except.ok scenarioQuote1
  else if n = 2 then Except.ok scenarioQuote2
  else Except.error ()

/-- A portrait variant for clip 42. -/
def scenarioFile42 : VideoFile := { width := 720, height := 1280, link := "pexels-42" }

/-- A portrait variant for clip 43. -/
def scenarioFile43 : VideoFile := { width := 720, height := 1280, link := "pexels-43" }

/-- The already-used clip candidate (id 42). -/
def scenarioClip42 : VideoCandidate := { id := 42, video_files := [scenarioFile42] }

/-- The fresh clip candidate (id 43). -/
def scenarioClip43 : VideoCandidate := { id := 43, video_files := [scenarioFile43] }

/-- Clip catalog of the scenario: candidate id 42 on attempt 1, id 43 on
attempt 2. -/
def scenarioClipStream : Nat → Except Unit (List VideoCandidate) := fun n =>
  if n = 1 then Except.ok [scenarioClip42]
  else if n = 2 then Except.ok [scenarioClip43]
  else Except.error ()

/-- A quote catalog every candidate of which collides with
`scenarioHistory`. -/
def collidingQuoteStream : Nat → Except Unit Quote := fun _ => Except.ok scenarioQuote1

/-- A clip catalog every candidate of which collides with
`scenarioHistory`. -/
def collidingClipStream : Nat → Except Unit (List VideoCandidate) := fun _ =>
  Except.ok [scenarioClip42]

/-- A fixed resolution of `random.choice`. -/
def pickZero : Nat → Nat := fun _ => 0

/-! ## Helper lemmas -/

lemma takeLast_length_le (n : Nat) (l : List α) : (takeLast n l).length ≤ n := by
  simp only [takeLast, List.length_drop]
  omega

lemma takeLast_suffix (n : Nat) (l : List α) : takeLast n l <:+ l :=
  List.drop_suffix _ _

lemma takeLast_idem (n : Nat) (l : List α) :
    takeLast n (takeLast n l) = takeLast n l := by
  have h := takeLast_length_le n l
  unfold takeLast
  rw [Nat.sub_eq_zero_of_le (by simpa [takeLast] using h), List.drop_zero]

lemma contains_append_self (l : List String) (a : String) :
    (l ++ [a]).contains a = true :=
  List.elem_eq_true_of_mem (List.mem_append_right _ (List.mem_singleton.mpr rfl))

lemma contains_append_of_contains (l : List String) (a b : String)
    (h : l.contains a = true) : (l ++ [b]).contains a = true :=
  List.elem_eq_true_of_mem (List.mem_append_left _ (List.mem_of_elem_eq_true h))

end TikTokQuotes

namespace TikTokQuotes

/-! ## Claim theorems: history store -/

/-- C4 counterexample: on a corrupt (unparseable) persisted store, `load`
raises the JSON decode error instead of returning the empty History, so the
claim's "also returns an empty History rather than failing when the store is
corrupt" is false on the code. -/
theorem load_corrupt_counterexample :
    ¬ (load DiskFile.corrupt = Except.ok { quotes := [], videos := [] }) :=
  fun h => Except.noConfusion h

/-- C4 amended: `load` returns the empty History when the persisted store is
missing; when the store is corrupt, `json.load`'s exception propagates out of
`load` (the pipeline fails) instead of an empty History being returned. -/
theorem load_missing_empty_corrupt_error :
    load DiskFile.missing = Except.ok { quotes := [], videos := [] } ∧
    load DiskFile.corrupt = Except.error "json.decoder.JSONDecodeError" := by
  exact ⟨rfl, rfl⟩

/-- C5: `save` persists each list truncated to its last `MAX_ENTRIES`
entries; the persisted lists are suffixes of the in-memory lists (most recent
entries kept, oldest evicted) of length at most `MAX_ENTRIES`; the truncation
is idempotent, and so is `save` itself on the whole store state. -/
theorem save_truncates_and_idempotent (s : StoreState) :
    (save s).disk = some { quotes := takeLast MAX_ENTRIES s.mem.quotes
                           videos := takeLast MAX_ENTRIES s.mem.videos } ∧
    (takeLast MAX_ENTRIES s.mem.quotes).length ≤ MAX_ENTRIES ∧
    (takeLast MAX_ENTRIES s.mem.videos).length ≤ MAX_ENTRIES ∧
    takeLast MAX_ENTRIES s.mem.quotes <:+ s.mem.quotes ∧
    takeLast MAX_ENTRIES s.mem.videos <:+ s.mem.videos ∧
    takeLast MAX_ENTRIES (takeLast MAX_ENTRIES s.mem.quotes) =
      takeLast MAX_ENTRIES s.mem.quotes ∧
    takeLast MAX_ENTRIES (takeLast MAX_ENTRIES s.mem.videos) =
      takeLast MAX_ENTRIES s.mem.videos ∧
    save (save s) = save s := by
  refine ⟨rfl, takeLast_length_le _ _, takeLast_length_le _ _,
    takeLast_suffix _ _, takeLast_suffix _ _,
    takeLast_idem _ _, takeLast_idem _ _, rfl⟩

/-- C10: `save` builds a trimmed copy for persistence and leaves the
in-memory History untouched; the in-memory lists may hence exceed
`MAX_ENTRIES` between saves while the persisted copy never does. -/
theorem save_preserves_memory :
    (∀ s : StoreState, (save s).mem = s.mem) ∧
    (∀ s : StoreState, ∀ d, (save s).disk = some d →
      d.quotes.length ≤ MAX_ENTRIES ∧ d.videos.length ≤ MAX_ENTRIES) ∧
    (∃ t : StoreState,
      MAX_ENTRIES < t.mem.quotes.length ∧ (save t).mem = t.mem) := by
  refine ⟨fun s => rfl, fun s d hd => ?_, ?_⟩
  · simp only [save] at hd
    injection hd with hd
    rw [← hd]
    exact ⟨takeLast_length_le _ _, takeLast_length_le _ _⟩
  · refine ⟨⟨⟨List.replicate (MAX_ENTRIES + 1) "", []⟩, none⟩, ?_, rfl⟩
    rw [List.length_replicate]
    omega

/-- C10 witness: `save_preserves_memory` at a concrete store state. -/
theorem save_preserves_memory_witness :
    (takeLast MAX_ENTRIES [""]).length ≤ MAX_ENTRIES ∧
    (takeLast MAX_ENTRIES ([] : List Nat)).length ≤ MAX_ENTRIES :=
  save_preserves_memory.2.1 ⟨⟨[""], []⟩, none⟩
    ⟨takeLast MAX_ENTRIES [""], takeLast MAX_ENTRIES ([] : List Nat)⟩ rfl

/-- C7: `quote_seen` is true on the in-memory History immediately after
`record` of that quote, stays true under any subsequent `record`, and `save`
does not change the in-memory History at all (eviction by truncation touches
only the persisted copy). -/
theorem quote_seen_after_record (h : History) (q : String) (vid : Nat) :
    quote_seen (record h q vid) q = true ∧
    (∀ (h' : History) (q' : String) (vid' : Nat), quote_seen h' q = true →
      quote_seen (record h' q' vid') q = true) ∧
    (∀ s : StoreState, quote_seen (save s).mem q = quote_seen s.mem q) :=
  ⟨contains_append_self _ _,
   fun _ _ _ hq => contains_append_of_contains _ _ _ hq,
   fun _ => rfl⟩

/-- C7 witness: the quote recorded into the scenario history is seen, and
stays seen after a further record. -/
theorem quote_seen_after_record_witness :
    quote_seen (record scenarioHistory "Stay curious." 43) "Stay curious." = true ∧
    quote_seen (record (record scenarioHistory "Stay curious." 43) "Next" 44)
      "Stay curious." = true :=
  ⟨(quote_seen_after_record scenarioHistory "Stay curious." 43).1,
   (quote_seen_after_record scenarioHistory "Stay curious." 43).2.1
     (record scenarioHistory "Stay curious." 43) "Next" 44 (by decide)⟩

/-- C6 counterexample: in the driver's per-iteration step sequence
(src/main.py lines 40-52) `compose_video` sits at index 2 and
`history_store.record` at index 3, so the history-record action does NOT
precede `compose_video`. -/
theorem record_before_compose_counterexample :
    iterationSteps.indexOf PipelineStep.composeStep = 2 ∧
    iterationSteps.indexOf PipelineStep.recordStep = 3 ∧
    ¬ (iterationSteps.indexOf PipelineStep.recordStep <
        iterationSteps.indexOf PipelineStep.composeStep) := by
  decide

/-- C6 amended: in every iteration of the driver loop, `record` is invoked
immediately after `compose_video` succeeds (as the iteration's last step),
before the next iteration's selections — not before `compose_video`. Indices
`4*i + k` address step `k` of iteration `i` in `mainLoopSteps`. -/
theorem record_after_compose :
    mainLoopSteps.length = 4 * VIDEOS_PER_DAY ∧
    mainLoopSteps.getD 2 PipelineStep.recordStep = PipelineStep.composeStep ∧
    mainLoopSteps.getD 3 PipelineStep.composeStep = PipelineStep.recordStep ∧
    mainLoopSteps.getD 6 PipelineStep.recordStep = PipelineStep.composeStep ∧
    mainLoopSteps.getD 7 PipelineStep.composeStep = PipelineStep.recordStep ∧
    mainLoopSteps.getD 10 PipelineStep.recordStep = PipelineStep.composeStep ∧
    mainLoopSteps.getD 11 PipelineStep.composeStep = PipelineStep.recordStep ∧
    mainLoopSteps.getD 4 PipelineStep.recordStep = PipelineStep.fetchQuoteStep ∧
    mainLoopSteps.getD 8 PipelineStep.recordStep = PipelineStep.fetchQuoteStep := by
  decide

/-! ## Selector lemmas -/

lemma fetchQuoteLoop_ok_not_seen (h : History) (stream : Nat → Except Unit Quote) :
    ∀ fuel attempt q n,
      fetchQuoteLoop h stream attempt fuel = Except.ok (q, n) →
      quote_seen h q.content = false := by
  intro fuel
  induction fuel with
  | zero => intro attempt q n hq; exact Except.noConfusion hq
  | succ fuel ih =>
    intro attempt q n hq
    unfold fetchQuoteLoop at hq
    cases hs : stream attempt with
    | error e => rw [hs] at hq; exact Except.noConfusion hq
    | ok quote =>
      rw [hs] at hq
      cases hseen : quote_seen h quote.content with
      | true => simp only [hseen, if_pos] at hq; exact ih _ _ _ hq
      | false =>
        simp only [hseen, Bool.false_eq_true, if_false] at hq
        obtain ⟨h1, -⟩ := Prod.mk.injEq .. ▸ Except.ok.inj hq
        exact h1 ▸ hseen

lemma fetchQuoteLoop_colliding_exhausts (h : History)
    (stream : Nat → Except Unit Quote)
    (hall : ∀ n, ∃ q, stream n = Except.ok q ∧ quote_seen h q.content = true) :
    ∀ fuel attempt,
      fetchQuoteLoop h stream attempt fuel = Except.error QuoteError.exhausted := by
  intro fuel
  induction fuel with
  | zero => intro attempt; rfl
  | succ fuel ih =>
    intro attempt
    obtain ⟨q, hs, hseen⟩ := hall attempt
    unfold fetchQuoteLoop
    rw [hs]
    simp only [hseen, if_pos]
    exact ih _

lemma fetchVideoLoop_ok_props (h : History)
    (stream : Nat → Except Unit (List VideoCandidate)) (pick : Nat → Nat) :
    ∀ fuel attempt r,
      fetchVideoLoop h stream pick attempt fuel = Except.ok r →
      video_seen h r.video.id = false ∧
      chooseVariantFile r.video.video_files = some r.file := by
  intro fuel
  induction fuel with
  | zero => intro attempt r hr; exact Except.noConfusion hr
  | succ fuel ih =>
    intro attempt r hr
    unfold fetchVideoLoop at hr
    split at hr
    · exact Except.noConfusion hr
    · split at hr
      · exact ih _ _ hr
      · simp only [] at hr
        split at hr
        · exact ih _ _ hr
        · split at hr
          · exact ih _ _ hr
          · rename_i videos hstream hvne hfne x file hcv
            cases Except.ok.inj hr
            refine ⟨?_, hcv⟩
            have hpos : 0 < (videos.filter (fun v => !video_seen h v.id)).length :=
              Nat.pos_of_ne_zero (fun h0 => hfne (List.isEmpty_iff_length_eq_zero.mpr h0))
            have hm := List.get_mem (videos.filter (fun v => !video_seen h v.id))
              (pick attempt % (videos.filter (fun v => !video_seen h v.id)).length)
              (Nat.mod_lt _ hpos)
            have := (List.mem_filter.mp hm).2
            simpa using this

lemma fetchVideoLoop_colliding_exhausts (h : History)
    (stream : Nat → Except Unit (List VideoCandidate)) (pick : Nat → Nat)
    (hall : ∀ n, ∃ batch, stream n = Except.ok batch ∧
      ∀ v ∈ batch, video_seen h v.id = true) :
    ∀ fuel attempt,
      fetchVideoLoop h stream pick attempt fuel = Except.error VideoError.exhausted := by
  intro fuel
  induction fuel with
  | zero => intro attempt; rfl
  | succ fuel ih =>
    intro attempt
    obtain ⟨batch, hs, hseen⟩ := hall attempt
    unfold fetchVideoLoop
    split
    · rename_i e heq
      rw [hs] at heq
      exact Except.noConfusion heq
    · rename_i videos heq
      rw [hs] at heq
      cases Except.ok.inj heq
      by_cases hb : batch.isEmpty = true
      · rw [if_pos hb]
        exact ih _
      · have hfr : batch.filter (fun v => !video_seen h v.id) = [] := by
          rw [List.filter_eq_nil_iff]
          intro v hv
          simp [hseen v hv]
        rw [if_neg hb]
        simp only [hfr]
        exact ih _

/-! ## Claim theorems: selectors -/

/-- C1: neither selector ever returns a candidate already in the supplied
History, and when every candidate offered across all attempts collides, the
selector raises the exhaustion error after its budget (10 attempts for
quotes, 5 for clips) instead of returning a duplicate. -/
theorem selectors_no_reuse_and_exhaustion :
    (∀ (h : History) (stream : Nat → Except Unit Quote) (q : Quote),
      fetch_quote h stream = Except.ok q → quote_seen h q.content = false) ∧
    (∀ (h : History) (stream : Nat → Except Unit Quote),
      (∀ n, ∃ q, stream n = Except.ok q ∧ quote_seen h q.content = true) →
      fetch_quote h stream = Except.error QuoteError.exhausted) ∧
    (∀ (h : History) (stream : Nat → Except Unit (List VideoCandidate))
      (pick : Nat → Nat) (dest : String) (vid : Nat),
      fetch_video h stream pick = Except.ok (dest, vid) →
      video_seen h vid = false) ∧
    (∀ (h : History) (stream : Nat → Except Unit (List VideoCandidate))
      (pick : Nat → Nat),
      (∀ n, ∃ batch, stream n = Except.ok batch ∧
        ∀ v ∈ batch, video_seen h v.id = true) →
      fetch_video h stream pick = Except.error VideoError.exhausted) := by
  refine ⟨?_, ?_, ?_, ?_⟩
  · intro h stream q hq
    unfold fetch_quote at hq
    cases hl : fetchQuoteLoop h stream 1 QUOTE_MAX_ATTEMPTS with
    | error e => rw [hl] at hq; exact Except.noConfusion hq
    | ok p =>
      rw [hl] at hq
      obtain ⟨q', n⟩ := p
      cases Except.ok.inj hq
      exact fetchQuoteLoop_ok_not_seen h stream _ _ _ _ hl
  · intro h stream hall
    unfold fetch_quote
    rw [fetchQuoteLoop_colliding_exhausts h stream hall QUOTE_MAX_ATTEMPTS 1]
    rfl
  · intro h stream pick dest vid hv
    unfold fetch_video at hv
    cases hl : fetchVideoLoop h stream pick 1 VIDEO_MAX_ATTEMPTS with
    | error e => rw [hl] at hv; exact Except.noConfusion hv
    | ok r =>
      rw [hl] at hv
      have h2 := congrArg (fun p => p.2) (Except.ok.inj hv)
      simp only at h2
      rw [← h2]
      exact (fetchVideoLoop_ok_props h stream pick _ _ _ hl).1
  · intro h stream pick hall
    unfold fetch_video
    rw [fetchVideoLoop_colliding_exhausts h stream pick hall VIDEO_MAX_ATTEMPTS 1]
    rfl

/-- C1 witness: at the concrete scenario inputs, the quote and clip returned
are unused, and all-colliding catalogs exhaust both selectors. -/
theorem selectors_no_reuse_and_exhaustion_witness :
    quote_seen scenarioHistory scenarioQuote2.content = false ∧
    fetch_quote scenarioHistory collidingQuoteStream =
      Except.error QuoteError.exhausted ∧
    video_seen scenarioHistory 43 = false ∧
    fetch_video scenarioHistory collidingClipStream pickZero =
      Except.error VideoError.exhausted :=
  ⟨selectors_no_reuse_and_exhaustion.1 scenarioHistory scenarioQuoteStream
      scenarioQuote2 rfl,
   selectors_no_reuse_and_exhaustion.2.1 scenarioHistory collidingQuoteStream
      (fun n => ⟨scenarioQuote1, rfl, by decide⟩),
   selectors_no_reuse_and_exhaustion.2.2.1 scenarioHistory scenarioClipStream
      pickZero "pexels-43" 43 rfl,
   selectors_no_reuse_and_exhaustion.2.2.2 scenarioHistory collidingClipStream
      pickZero (fun n => ⟨[scenarioClip42], rfl, by decide⟩)⟩

/-- C8: on the spec's end-to-end scenario — History `{quotes: ["Be
yourself."], videos: [42]}`, clip catalog offering id 42 on attempt 1 and id
43 on attempt 2, quote catalog offering "Be yourself." then "Stay curious."
— the clip selector skips 42 and returns 43, and the quote selector returns
"Stay curious." consuming exactly 2 attempts. -/
theorem scenario_selectors :
    fetchQuoteLoop scenarioHistory scenarioQuoteStream 1 QUOTE_MAX_ATTEMPTS =
      Except.ok (scenarioQuote2, 2) ∧
    fetch_quote scenarioHistory scenarioQuoteStream = Except.ok scenarioQuote2 ∧
    fetchVideoLoop scenarioHistory scenarioClipStream pickZero 1 VIDEO_MAX_ATTEMPTS =
      Except.ok { video := scenarioClip43, file := scenarioFile43, attempt := 2 } ∧
    fetch_video scenarioHistory scenarioClipStream pickZero =
      Except.ok ("pexels-43", 43) := by
  refine ⟨rfl, rfl, rfl, rfl⟩

/-! ## Variant-selection lemmas -/

lemma length_insertByHeightDesc (f : VideoFile) (l : List VideoFile) :
    (insertByHeightDesc f l).length = l.length + 1 := by
  induction l with
  | nil => rfl
  | cons g gs ih =>
    unfold insertByHeightDesc
    split
    · simp [ih]
    · simp

lemma length_sortByHeightDesc (l : List VideoFile) :
    (sortByHeightDesc l).length = l.length := by
  induction l with
  | nil => rfl
  | cons a as ih =>
    show (insertByHeightDesc a (sortByHeightDesc as)).length = as.length + 1
    rw [length_insertByHeightDesc, ih]

lemma sortByHeightDesc_head_max : ∀ (l : List VideoFile) (x : VideoFile),
    (sortByHeightDesc l).head? = some x → x ∈ l ∧ ∀ g ∈ l, g.height ≤ x.height := by
  intro l
  induction l with
  | nil => intro x hx; exact Option.noConfusion hx
  | cons a as ih =>
    intro x hx
    have hrw : sortByHeightDesc (a :: as) = insertByHeightDesc a (sortByHeightDesc as) := rfl
    cases hs : sortByHeightDesc as with
    | nil =>
      have has : as = [] := by
        have := length_sortByHeightDesc as
        rw [hs] at this
        exact List.length_eq_zero.mp this.symm
      rw [hrw, hs] at hx
      have hxa : x = a := by simpa [insertByHeightDesc] using hx.symm
      subst hxa
      subst has
      exact ⟨List.mem_singleton.mpr rfl, by simp⟩
    | cons b bs =>
      obtain ⟨hbmem, hbmax⟩ := ih b (by rw [hs]; rfl)
      rw [hrw, hs] at hx
      unfold insertByHeightDesc at hx
      by_cases hcmp : b.height ≥ a.height
      · rw [if_pos hcmp] at hx
        have hxb : x = b := by simpa using hx.symm
        subst hxb
        refine ⟨List.mem_cons_of_mem _ hbmem, ?_⟩
        intro g hg
        rcases List.mem_cons.mp hg with rfl | hg'
        · exact hcmp
        · exact hbmax g hg'
      · rw [if_neg hcmp] at hx
        have hxa : x = a := by simpa using hx.symm
        subst hxa
        refine ⟨List.mem_cons_self _ _, ?_⟩
        intro g hg
        rcases List.mem_cons.mp hg with rfl | hg'
        · exact Nat.le_refl _
        · exact Nat.le_trans (hbmax g hg') (Nat.le_of_lt (Nat.lt_of_not_le hcmp))

lemma chooseVariantFile_spec (fs : List VideoFile) (f : VideoFile)
    (hc : chooseVariantFile fs = some f) :
    ((fs.filter (fun g => g.height > g.width)) ≠ [] →
      f ∈ fs.filter (fun g => g.height > g.width) ∧
      ∀ g ∈ fs.filter (fun g => g.height > g.width), g.height ≤ f.height) ∧
    ((fs.filter (fun g => g.height > g.width)) = [] →
      f ∈ fs ∧ ∀ g ∈ fs, g.height ≤ f.height) := by
  constructor
  · intro hne
    have hp : (fs.filter (fun g => g.height > g.width)).isEmpty = false := by
      cases hi : (fs.filter (fun g => g.height > g.width)).isEmpty
      · rfl
      · exact absurd (List.isEmpty_iff.mp hi) hne
    unfold chooseVariantFile at hc
    simp only [hp, Bool.false_eq_true, if_false] at hc
    exact sortByHeightDesc_head_max _ _ hc
  · intro heq
    unfold chooseVariantFile at hc
    simp only [heq, List.isEmpty_nil, if_true] at hc
    exact sortByHeightDesc_head_max _ _ hc

/-- C9: after a fresh candidate is picked, the variant chosen for download is
a portrait one (height > width) whenever the candidate has at least one
portrait variant, and of maximal height among the portrait ones; only when no
portrait variant exists is a variant of maximal height among all files
chosen. -/
theorem variant_portrait_preference :
    (∀ (h : History) (stream : Nat → Except Unit (List VideoCandidate))
      (pick : Nat → Nat) (r : VideoResult),
      fetchVideoLoop h stream pick 1 VIDEO_MAX_ATTEMPTS = Except.ok r →
      video_seen h r.video.id = false ∧
      chooseVariantFile r.video.video_files = some r.file) ∧
    (∀ (fs : List VideoFile) (f : VideoFile), chooseVariantFile fs = some f →
      ((∃ g ∈ fs, g.height > g.width) →
        f.height > f.width ∧ f ∈ fs ∧
        ∀ g ∈ fs, g.height > g.width → g.height ≤ f.height) ∧
      ((∀ g ∈ fs, ¬ g.height > g.width) →
        f ∈ fs ∧ ∀ g ∈ fs, g.height ≤ f.height)) := by
  refine ⟨fun h stream pick r hr => fetchVideoLoop_ok_props h stream pick _ _ _ hr,
    fun fs f hc => ⟨?_, ?_⟩⟩
  · intro ⟨g0, hg0, hp0⟩
    have hne : fs.filter (fun g => g.height > g.width) ≠ [] := by
      intro hnil
      rw [List.filter_eq_nil_iff] at hnil
      exact hnil g0 hg0 (by simpa using hp0)
    obtain ⟨hmem, hmax⟩ := (chooseVariantFile_spec fs f hc).1 hne
    obtain ⟨hfin, hfp⟩ := List.mem_filter.mp hmem
    refine ⟨by simpa using hfp, hfin, ?_⟩
    intro g hg hgp
    exact hmax g (List.mem_filter.mpr ⟨hg, by simpa using hgp⟩)
  · intro hall
    have heq : fs.filter (fun g => g.height > g.width) = [] := by
      rw [List.filter_eq_nil_iff]
      intro g hg
      simpa using hall g hg
    exact (chooseVariantFile_spec fs f hc).2 heq

/-- C9 witness: the selector's choice on the scenario, a portrait pick among
mixed variants, and a landscape pick when no portrait variant exists. -/
theorem variant_portrait_preference_witness :
    (video_seen scenarioHistory scenarioClip43.id = false ∧
     chooseVariantFile scenarioClip43.video_files = some scenarioFile43) ∧
    ((⟨1080, 1920, "c"⟩ : VideoFile).height > (⟨1080, 1920, "c"⟩ : VideoFile).width ∧
     (⟨1080, 1920, "c"⟩ : VideoFile) ∈
       [(⟨1920, 1080, "a"⟩ : VideoFile), ⟨720, 1280, "b"⟩, ⟨1080, 1920, "c"⟩] ∧
     ∀ g ∈ [(⟨1920, 1080, "a"⟩ : VideoFile), ⟨720, 1280, "b"⟩, ⟨1080, 1920, "c"⟩],
       g.height > g.width → g.height ≤ (⟨1080, 1920, "c"⟩ : VideoFile).height) ∧
    ((⟨1920, 1080, "a"⟩ : VideoFile) ∈
       [(⟨1920, 1080, "a"⟩ : VideoFile), ⟨1280, 720, "b"⟩] ∧
     ∀ g ∈ [(⟨1920, 1080, "a"⟩ : VideoFile), ⟨1280, 720, "b"⟩],
       g.height ≤ (⟨1920, 1080, "a"⟩ : VideoFile).height) :=
  ⟨variant_portrait_preference.1 scenarioHistory scenarioClipStream pickZero
      { video := scenarioClip43, file := scenarioFile43, attempt := 2 } rfl,
   (variant_portrait_preference.2
      [⟨1920, 1080, "a"⟩, ⟨720, 1280, "b"⟩, ⟨1080, 1920, "c"⟩]
      ⟨1080, 1920, "c"⟩ rfl).1 (by decide),
   (variant_portrait_preference.2
      [⟨1920, 1080, "a"⟩, ⟨1280, 720, "b"⟩]
      ⟨1920, 1080, "a"⟩ rfl).2 (by decide)⟩

/-! ## Word-wrap lemmas -/

lemma joinWords_singleton (w : String) : joinWords [w] = w := rfl

lemma wrapLoop_flatten (m : String → Nat) (mw : Nat) :
    ∀ (rest current : List String),
      (wrapLoop m mw current rest).flatten = current ++ rest := by
  intro rest
  induction rest with
  | nil =>
    intro current
    unfold wrapLoop
    by_cases hc : current.isEmpty = true
    · rw [if_pos hc, List.isEmpty_iff.mp hc]
      rfl
    · rw [if_neg hc]
      simp
  | cons word rest ih =>
    intro current
    unfold wrapLoop
    by_cases h1 : m (joinWords (current ++ [word])) ≤ mw
    · rw [if_pos h1, ih]
      simp
    · rw [if_neg h1]
      by_cases h2 : current.isEmpty = true
      · rw [if_pos h2, ih, List.isEmpty_iff.mp h2]
        rfl
      · rw [if_neg h2]
        simp [ih]

lemma wrapLoop_lines (m : String → Nat) (mw : Nat) :
    ∀ (rest current : List String),
      (current ≠ [] → m (joinWords current) ≤ mw ∨ ∃ w, current = [w]) →
      ∀ l ∈ wrapLoop m mw current rest,
        m (joinWords l) ≤ mw ∨ ∃ w, l = [w] := by
  intro rest
  induction rest with
  | nil =>
    intro current hcur l hl
    unfold wrapLoop at hl
    by_cases hc : current.isEmpty = true
    · rw [if_pos hc] at hl
      exact absurd hl (List.not_mem_nil l)
    · rw [if_neg hc] at hl
      rw [List.mem_singleton.mp hl]
      exact hcur (fun he => hc (by simp [he]))
  | cons word rest ih =>
    intro current hcur l hl
    unfold wrapLoop at hl
    by_cases h1 : m (joinWords (current ++ [word])) ≤ mw
    · rw [if_pos h1] at hl
      exact ih (current ++ [word]) (fun _ => Or.inl h1) l hl
    · rw [if_neg h1] at hl
      by_cases h2 : current.isEmpty = true
      · rw [if_pos h2] at hl
        exact ih [word] (fun _ => Or.inr ⟨word, rfl⟩) l hl
      · rw [if_neg h2] at hl
        rcases List.mem_cons.mp hl with rfl | hl'
        · exact hcur (fun he => h2 (by simp [he]))
        · exact ih [word] (fun _ => Or.inr ⟨word, rfl⟩) l hl'

lemma wrapLoop_prefix_fits (m : String → Nat) (mw : Nat) :
    ∀ (rest current : List String),
      (∀ i, 2 ≤ i → i ≤ current.length → m (joinWords (current.take i)) ≤ mw) →
      ∀ l ∈ wrapLoop m mw current rest,
        ∀ i, 2 ≤ i → i ≤ l.length → m (joinWords (l.take i)) ≤ mw := by
  intro rest
  induction rest with
  | nil =>
    intro current hcur l hl
    unfold wrapLoop at hl
    by_cases hc : current.isEmpty = true
    · rw [if_pos hc] at hl
      exact absurd hl (List.not_mem_nil l)
    · rw [if_neg hc] at hl
      rw [List.mem_singleton.mp hl]
      exact hcur
  | cons word rest ih =>
    intro current hcur l hl
    unfold wrapLoop at hl
    by_cases h1 : m (joinWords (current ++ [word])) ≤ mw
    · rw [if_pos h1] at hl
      refine ih (current ++ [word]) ?_ l hl
      intro i h2 hle
      rcases Nat.lt_or_ge i (current.length + 1) with hlt | hge
      · rw [List.take_append_of_le_length (Nat.lt_succ_iff.mp hlt)]
        exact hcur i h2 (Nat.lt_succ_iff.mp hlt)
      · have hlen : (current ++ [word]).length = current.length + 1 := by simp
        rw [List.take_of_length_le (by omega)]
        exact h1
    · rw [if_neg h1] at hl
      by_cases h2 : current.isEmpty = true
      · rw [if_pos h2] at hl
        refine ih [word] ?_ l hl
        intro i hi2 hile
        simp at hile
        omega
      · rw [if_neg h2] at hl
        rcases List.mem_cons.mp hl with rfl | hl'
        · exact hcur
        · refine ih [word] ?_ l hl'
          intro i hi2 hile
          simp at hile
          omega

lemma wrapLoop_ne_nil_head (m : String → Nat) (mw : Nat) :
    ∀ (rest current : List String), current ≠ [] →
      ∃ l ls, wrapLoop m mw current rest = l :: ls ∧ l.head? = current.head? := by
  intro rest
  induction rest with
  | nil =>
    intro current hne
    unfold wrapLoop
    rw [if_neg (fun hc => hne (List.isEmpty_iff.mp hc))]
    exact ⟨current, [], rfl, rfl⟩
  | cons word rest ih =>
    intro current hne
    unfold wrapLoop
    by_cases h1 : m (joinWords (current ++ [word])) ≤ mw
    · rw [if_pos h1]
      obtain ⟨l, ls, heq, hhead⟩ := ih (current ++ [word]) (by simp)
      refine ⟨l, ls, heq, ?_⟩
      rw [hhead]
      cases current with
      | nil => exact absurd rfl hne
      | cons c cs => rfl
    · rw [if_neg h1, if_neg (fun hc => hne (List.isEmpty_iff.mp hc))]
      exact ⟨current, _, rfl, rfl⟩

lemma wrapLoop_chain (m : String → Nat) (mw : Nat) :
    ∀ (rest current : List String),
      List.Chain' (fun l l' => ∃ w t, l' = w :: t ∧ mw < m (joinWords (l ++ [w])))
        (wrapLoop m mw current rest) := by
  intro rest
  induction rest with
  | nil =>
    intro current
    unfold wrapLoop
    by_cases hc : current.isEmpty = true
    · rw [if_pos hc]
      exact List.chain'_nil
    · rw [if_neg hc]
      exact List.chain'_singleton _
  | cons word rest ih =>
    intro current
    unfold wrapLoop
    by_cases h1 : m (joinWords (current ++ [word])) ≤ mw
    · rw [if_pos h1]
      exact ih _
    · rw [if_neg h1]
      by_cases h2 : current.isEmpty = true
      · rw [if_pos h2]
        exact ih _
      · rw [if_neg h2]
        obtain ⟨l, ls, heq, hhead⟩ := wrapLoop_ne_nil_head m mw rest [word] (by simp)
        rw [heq]
        refine List.chain'_cons.mpr ⟨?_, heq ▸ ih [word]⟩
        cases l with
        | nil => exact absurd hhead (by simp)
        | cons w t =>
          have hww : w = word := by simpa using hhead
          subst hww
          exact ⟨w, t, rfl, Nat.lt_of_not_le h1⟩

lemma wrapLoop_overwide_alone (m : String → Nat) (mw : Nat)
    (hmono : ∀ (pre post : List String) (w : String),
      m w ≤ m (joinWords (pre ++ w :: post))) :
    ∀ (rest current : List String),
      (∀ w ∈ current, mw < m w → current = [w]) →
      ∀ l ∈ wrapLoop m mw current rest, ∀ w ∈ l, mw < m w → l = [w] := by
  intro rest
  induction rest with
  | nil =>
    intro current hcur l hl
    unfold wrapLoop at hl
    by_cases hc : current.isEmpty = true
    · rw [if_pos hc] at hl
      exact absurd hl (List.not_mem_nil l)
    · rw [if_neg hc] at hl
      rw [List.mem_singleton.mp hl]
      exact hcur
  | cons word rest ih =>
    intro current hcur l hl
    unfold wrapLoop at hl
    by_cases h1 : m (joinWords (current ++ [word])) ≤ mw
    · rw [if_pos h1] at hl
      refine ih (current ++ [word]) ?_ l hl
      intro w hw hmw
      obtain ⟨pre, post, hsplit⟩ := List.append_of_mem hw
      have hle := hmono pre post w
      rw [← hsplit] at hle
      omega
    · rw [if_neg h1] at hl
      by_cases h2 : current.isEmpty = true
      · rw [if_pos h2] at hl
        refine ih [word] ?_ l hl
        intro w hw _
        rw [List.mem_singleton.mp hw]
      · rw [if_neg h2] at hl
        rcases List.mem_cons.mp hl with rfl | hl'
        · exact hcur
        · refine ih [word] ?_ l hl'
          intro w hw _
          rw [List.mem_singleton.mp hw]

/-! ## Claim theorems: word wrap -/

/-- C2 counterexample: with a character-count metric and maximum width 5, the
wrap of "supercalifragilistic is long" produces the line
"supercalifragilistic" of measured width 20 > 5, so "every produced line's
measured width does not exceed the maximum" is false on the code. -/
theorem wrap_width_counterexample :
    "supercalifragilistic" ∈
      wrap_to_width String.length "supercalifragilistic is long" 5 ∧
    5 < String.length "supercalifragilistic" := by
  exact ⟨by decide, by decide⟩

/-- C2 amended: every line produced by `_wrap_to_width` has measured width at
most the maximum, unless the line consists of a single input word (placed
alone even though it alone exceeds the width). -/
theorem wrap_lines_fit_or_single_word (measure : String → Nat) (max_w : Nat)
    (text : String) (line : String)
    (hl : line ∈ wrap_to_width measure text max_w) :
    measure line ≤ max_w ∨ ∃ w ∈ pySplit text, line = w := by
  unfold wrap_to_width at hl
  obtain ⟨l, hlmem, rfl⟩ := List.mem_map.mp hl
  rcases wrapLoop_lines measure max_w (pySplit text) []
      (fun h => absurd rfl h) l hlmem with hfit | ⟨w, rfl⟩
  · exact Or.inl hfit
  · refine Or.inr ⟨w, ?_, joinWords_singleton w⟩
    have hfl := wrapLoop_flatten measure max_w (pySplit text) []
    have hmem : w ∈ (wrapLoop measure max_w [] (pySplit text)).flatten :=
      List.mem_flatten.mpr ⟨[w], hlmem, List.mem_singleton.mpr rfl⟩
    rw [hfl] at hmem
    exact hmem

/-- C2 amended witness: `wrap_lines_fit_or_single_word` at the concrete
overwide-word input. -/
theorem wrap_lines_fit_or_single_word_witness :
    String.length "supercalifragilistic" ≤ 5 ∨
    ∃ w ∈ pySplit "supercalifragilistic is long", "supercalifragilistic" = w :=
  wrap_lines_fit_or_single_word String.length 5 "supercalifragilistic is long"
    "supercalifragilistic" (by decide)

/-- C3: the wrap is greedy and total: (i) the words of the output lines, in
order, are exactly the input words — nothing dropped, and the loop is a total
structural recursion; (ii) `wrap_to_width` is the joined rendering of the
word-level lines; (iii) within a line, every extension that happened fitted
(each prefix of ≥ 2 words measures within the maximum); (iv) each line break
is forced: the next line's first word would have overflowed the closed line;
(v) assuming a word never measures more than a line containing it (true of
real font metrics), a word wider than the maximum always stands whole, alone
on its own line. -/
theorem wrap_greedy_spec (measure : String → Nat) (max_w : Nat) (text : String) :
    ((wrapLoop measure max_w [] (pySplit text)).flatten = pySplit text) ∧
    (wrap_to_width measure text max_w =
      (wrapLoop measure max_w [] (pySplit text)).map joinWords) ∧
    (∀ l ∈ wrapLoop measure max_w [] (pySplit text), ∀ i, 2 ≤ i → i ≤ l.length →
      measure (joinWords (l.take i)) ≤ max_w) ∧
    (List.Chain' (fun l l' => ∃ w t, l' = w :: t ∧
      max_w < measure (joinWords (l ++ [w])))
      (wrapLoop measure max_w [] (pySplit text))) ∧
    ((∀ (pre post : List String) (w : String),
        measure w ≤ measure (joinWords (pre ++ w :: post))) →
      ∀ l ∈ wrapLoop measure max_w [] (pySplit text), ∀ w ∈ l,
        max_w < measure w → l = [w]) := by
  refine ⟨by simpa using wrapLoop_flatten measure max_w (pySplit text) [],
    rfl,
    wrapLoop_prefix_fits measure max_w (pySplit text) [] ?_,
    wrapLoop_chain measure max_w (pySplit text) [],
    fun hmono => wrapLoop_overwide_alone measure max_w hmono (pySplit text) []
      (fun w hw => absurd hw (List.not_mem_nil w))⟩
  intro i h2 h0
  simp at h0
  omega

/-- C3 witness: `wrap_greedy_spec` applied at concrete inputs — a two-word
line whose prefixes fit, and an overwide word standing alone. -/
theorem wrap_greedy_spec_witness :
    String.length (joinWords ((["a", "b"] : List String).take 2)) ≤ 3 ∧
    (["a"] : List String) = ["a"] :=
  ⟨(wrap_greedy_spec String.length 3 "a b c").2.2.1 ["a", "b"]
      (by decide) 2 (by decide) (by decide),
   (wrap_greedy_spec (fun _ => 2) 1 "a b").2.2.2.2 (fun _ _ _ => Nat.le_refl 2)
      ["a"] (by decide) "a" (by decide) (by decide)⟩

end TikTokQuotes
